import Mathlib

/-!
# Verification of the thermal ESC/POS parser and renderer

A shallow embedding of the core data model and algorithms of the
thermal repository (command handlers, printer context, graphics
utilities, layout engine), together with proofs settling the spec's
claims about them.  Bytes are modelled as natural numbers (with
explicit bounds where overflow matters), Rust vectors as lists, and
fallible or panicking code as Option-shaped results.
-/

set_option autoImplicit false

namespace Thermal

/-! ## Page mode directions and rotation (context.rs) -/

/-- Print directions of the page-mode subsystem, from context.rs. -/
inductive PrintDirection where
  | TopLeft2Right
  | BottomRight2Left
  | TopRight2Bottom
  | BottomLeft2Top
  deriving DecidableEq, Fintype

/-- Rotation values returned by apply_logical_area, from context.rs. -/
inductive Rotation where
  | R0
  | R90
  | R180
  | R270
  deriving DecidableEq, Fintype

/-- The direction encoding used by calculate_directional_rotation
(context.rs): TopRight2Bottom is 3, BottomRight2Left 2, BottomLeft2Top 1
and TopLeft2Right 0. -/
def direction_index : PrintDirection → Int
  | PrintDirection.TopRight2Bottom => 3
  | PrintDirection.BottomRight2Left => 2
  | PrintDirection.BottomLeft2Top => 1
  | PrintDirection.TopLeft2Right => 0

/-- PageModeContext::calculate_directional_rotation from context.rs: the
orientation delta is (current - previous).rem_euclid(4) and is mapped to
a quarter-turn rotation.  Int.emod coincides with Rust's rem_euclid. -/
def calculate_directional_rotation (dfrom dto : PrintDirection) : Rotation :=
  let orientation_delta := (direction_index dto - direction_index dfrom).emod 4
  if orientation_delta = 1 then Rotation.R90
  else if orientation_delta = 2 then Rotation.R180
  else if orientation_delta = 3 then Rotation.R270
  else Rotation.R0

/-- Degrees of a rotation value. -/
def rotation_degrees : Rotation → Nat
  | Rotation.R0 => 0
  | Rotation.R90 => 90
  | Rotation.R180 => 180
  | Rotation.R270 => 270

/-- The direction sequence of the page-rotation-group scenario. -/
def rotation_group_sequence : List PrintDirection :=
  [PrintDirection.TopLeft2Right, PrintDirection.BottomLeft2Top,
   PrintDirection.BottomRight2Left, PrintDirection.TopRight2Bottom,
   PrintDirection.TopLeft2Right]

/-- Rotation deltas produced by consecutive pairs of a direction sequence. -/
def rotation_deltas : List PrintDirection → List Nat
  | a :: b :: rest => rotation_degrees (calculate_directional_rotation a b) :: rotation_deltas (b :: rest)
  | _ => []

/-- C3: calculate_directional_rotation(from, to) equals
((index(to) - index(from)) mod 4) * 90 degrees for all sixteen direction
pairs, under the encoding TopLeft2Right = 0, BottomLeft2Top = 1,
BottomRight2Left = 2, TopRight2Bottom = 3; and the direction sequence
[TopLeft2Right, BottomLeft2Top, BottomRight2Left, TopRight2Bottom,
TopLeft2Right] produces rotation deltas summing to 360 degrees, which is
0 mod 360. -/
theorem c3_directional_rotation :
    (∀ dfrom dto : PrintDirection,
      (rotation_degrees (calculate_directional_rotation dfrom dto) : Int) =
        ((direction_index dto - direction_index dfrom).emod 4) * 90) ∧
    (rotation_deltas rotation_group_sequence).sum = 360 ∧
    (rotation_deltas rotation_group_sequence).sum % 360 = 0 := by
  refine ⟨?_, by decide, by decide⟩
  decide

/-! ## Barcode handler (commands/barcode.rs) -/

/-- Barcode symbologies recognised by the GS k handler, from
commands/barcode.rs. -/
inductive BarcodeType where
  | UpcA
  | UpcE
  | Ean13
  | Ean8
  | Code39
  | Itf
  | Nw7Codabar
  | Code93
  | Code128
  | Gs1128
  | Gs1DatabarOmni
  | Gs1DatabarTruncated
  | Gs1DatabarLimited
  | Gs1DatabarExpanded
  | Code128Auto
  | Unknown
  deriving DecidableEq, Fintype

/-- BarcodeHandler::validate_data_length from commands/barcode.rs:
any length above 255 is rejected up front, then the length is checked
per symbology (the wildcard arm, covering Code93 and Unknown, accepts
any positive length). -/
def validate_data_length (kind : BarcodeType) (length : Nat) : Bool :=
  if 255 < length then false
  else
    match kind with
    | BarcodeType.UpcA => length == 11 || length == 12
    | BarcodeType.UpcE =>
        length == 6 || length == 7 || length == 8 || length == 11 || length == 12
    | BarcodeType.Ean13 => length == 12 || length == 13
    | BarcodeType.Ean8 => length == 7 || length == 8
    | BarcodeType.Code39 => decide (0 < length)
    | BarcodeType.Nw7Codabar => decide (2 < length)
    | BarcodeType.Itf => decide (2 < length)
    | BarcodeType.Gs1DatabarLimited => length == 13
    | BarcodeType.Gs1DatabarTruncated => length == 13
    | BarcodeType.Gs1DatabarOmni => length == 13
    | BarcodeType.Code128 => decide (1 < length)
    | BarcodeType.Gs1128 => decide (1 < length)
    | BarcodeType.Gs1DatabarExpanded => decide (1 < length)
    | BarcodeType.Code128Auto => decide (0 < length)
    | _ => decide (0 < length)

/-- The symbologies listed in the spec's validation table. -/
def spec_table_kinds : List BarcodeType :=
  [BarcodeType.UpcA, BarcodeType.Ean13,
   BarcodeType.Gs1DatabarOmni, BarcodeType.Gs1DatabarTruncated,
   BarcodeType.Gs1DatabarLimited,
   BarcodeType.Code128, BarcodeType.Gs1128, BarcodeType.Gs1DatabarExpanded,
   BarcodeType.Code39, BarcodeType.Code128Auto,
   BarcodeType.Nw7Codabar, BarcodeType.Itf]

/-- The validation rule exactly as the spec's table words it (UPC-A:
11 or 12; EAN-13: 12 or 13; DataBar omni/truncated/limited: exactly 13;
Code128, GS1-128, DataBar expanded: more than 1; Code39, Code128Auto:
more than 0; Codabar, ITF: more than 2).  This definition follows the
spec, to be compared with validate_data_length from the source. -/
def spec_validation_table (kind : BarcodeType) (n : Nat) : Bool :=
  match kind with
  | BarcodeType.UpcA => n == 11 || n == 12
  | BarcodeType.Ean13 => n == 12 || n == 13
  | BarcodeType.Gs1DatabarOmni => n == 13
  | BarcodeType.Gs1DatabarTruncated => n == 13
  | BarcodeType.Gs1DatabarLimited => n == 13
  | BarcodeType.Code128 => decide (1 < n)
  | BarcodeType.Gs1128 => decide (1 < n)
  | BarcodeType.Gs1DatabarExpanded => decide (1 < n)
  | BarcodeType.Code39 => decide (0 < n)
  | BarcodeType.Code128Auto => decide (0 < n)
  | BarcodeType.Nw7Codabar => decide (2 < n)
  | BarcodeType.Itf => decide (2 < n)
  | _ => false

/-- C1 counterexample: at n = 256 the table prescribes true for Code39
(256 > 0), but validate_data_length returns false because every length
above 255 is rejected, so the claimed agreement over [0, 256] fails. -/
theorem c1_counterexample :
    validate_data_length BarcodeType.Code39 256 = false ∧
    spec_validation_table BarcodeType.Code39 256 = true := by
  decide

set_option maxRecDepth 4096 in
/-- C1 (amended): for every symbology of the spec's table,
validate_data_length agrees with the table for all n in [0, 255];
for every n above 255 (in particular n = 256) it returns false for
every symbology. -/
theorem c1_validate_data_length_table :
    (∀ kind, kind ∈ spec_table_kinds →
      ∀ n, n < 256 → validate_data_length kind n = spec_validation_table kind n) ∧
    (∀ (kind : BarcodeType) (n : Nat), 255 < n → validate_data_length kind n = false) := by
  constructor
  · decide
  · intro kind n h
    unfold validate_data_length
    rw [if_pos h]

/-- C1 witness: the amended theorem evaluated at UPC-A with length 12
(accepted) and at Codabar with length 2 (rejected). -/
theorem c1_witness :
    validate_data_length BarcodeType.UpcA 12 = spec_validation_table BarcodeType.UpcA 12 ∧
    validate_data_length BarcodeType.Nw7Codabar 2 = spec_validation_table BarcodeType.Nw7Codabar 2 ∧
    validate_data_length BarcodeType.Code39 300 = false :=
  ⟨c1_validate_data_length_table.1 BarcodeType.UpcA (by decide) 12 (by decide),
   c1_validate_data_length_table.1 BarcodeType.Nw7Codabar (by decide) 2 (by decide),
   c1_validate_data_length_table.2 BarcodeType.Code39 300 (by decide)⟩

/-- Payload encoding selected by the GS k type byte, from
commands/barcode.rs. -/
inductive EncodingFunction where
  | NulTerminated
  | ExplicitSize
  | Unknown
  deriving DecidableEq

/-- The mutable state of BarcodeHandler (commands/barcode.rs); the
command's payload buffer is passed separately, as in the source. -/
structure BarcodeHandler where
  kind : BarcodeType
  kind_id : Nat
  encoding : EncodingFunction
  capacity : Nat
  has_capacity : Bool
  accept_data : Bool
  raw_params : List Nat
  deriving DecidableEq

/-- The fresh handler produced by the GS k command factory. -/
def barcode_new : BarcodeHandler :=
  { kind := BarcodeType.Unknown, kind_id := 0, encoding := EncodingFunction.Unknown,
    capacity := 0, has_capacity := false, accept_data := false, raw_params := [] }

/-- The type-selector table of BarcodeHandler::push. -/
def barcode_kind_of (byte : Nat) : BarcodeType :=
  if byte = 0 ∨ byte = 65 then BarcodeType.UpcA
  else if byte = 1 ∨ byte = 66 then BarcodeType.UpcE
  else if byte = 2 ∨ byte = 67 then BarcodeType.Ean13
  else if byte = 3 ∨ byte = 68 then BarcodeType.Ean8
  else if byte = 4 ∨ byte = 69 then BarcodeType.Code39
  else if byte = 5 ∨ byte = 70 then BarcodeType.Itf
  else if byte = 6 ∨ byte = 71 then BarcodeType.Nw7Codabar
  else if byte = 72 then BarcodeType.Code93
  else if byte = 73 then BarcodeType.Code128
  else if byte = 80 then BarcodeType.Gs1128
  else if byte = 81 then BarcodeType.Gs1DatabarOmni
  else if byte = 82 then BarcodeType.Gs1DatabarTruncated
  else if byte = 83 then BarcodeType.Gs1DatabarLimited
  else if byte = 84 then BarcodeType.Gs1DatabarExpanded
  else if byte = 85 then BarcodeType.Code128Auto
  else BarcodeType.Unknown

/-- BarcodeHandler::push from commands/barcode.rs.  Returns the new
handler state, the new payload buffer, and the accepted flag (false
signals completion; the offered byte is then not consumed).  The first
byte is the type selector: 0-6 select NUL-terminated encoding, 65-79
explicit-size encoding, anything else the unknown encoding.  A
NUL-terminated payload completes on the push after the NUL was appended
(data.last() is inspected with default 0x01 and the NUL is popped); an
explicit-size payload first records a capacity byte and then accepts
exactly that many bytes. -/
def barcode_push (h : BarcodeHandler) (data : List Nat) (byte : Nat) :
    BarcodeHandler × List Nat × Bool :=
  if h.accept_data = false then
    ({ h with
        raw_params := h.raw_params ++ [byte],
        kind_id := byte,
        kind := barcode_kind_of byte,
        encoding :=
          if byte ≤ 6 then EncodingFunction.NulTerminated
          else if 65 ≤ byte ∧ byte ≤ 79 then EncodingFunction.ExplicitSize
          else EncodingFunction.Unknown,
        accept_data := true },
      data, true)
  else
    match h.encoding with
    | EncodingFunction.NulTerminated =>
        if data.getLast?.getD 1 = 0 then (h, data.dropLast, false)
        else (h, data ++ [byte], true)
    | EncodingFunction.ExplicitSize =>
        if h.has_capacity = false then
          ({ h with
              raw_params := h.raw_params ++ [byte],
              capacity := byte,
              has_capacity := true },
            data, true)
        else if data.length < h.capacity then (h, data ++ [byte], true)
        else (h, data, false)
    | EncodingFunction.Unknown => (h, data, false)

/-- The parser's Accumulate loop for a Custom-data command: offer bytes
to the handler until push returns false; the refused byte is pushed
back.  Returns the final handler state, the payload, the unconsumed
remainder of the stream, and whether the handler signalled completion.
Modelled from the spec's parser state machine (parser.rs is not under
src/): per section 4.2 a handler-driven command completes exactly when
push returns false, and the refused byte is returned to the parser. -/
def barcode_feed : BarcodeHandler → List Nat → List Nat →
    BarcodeHandler × List Nat × List Nat × Bool
  | h, data, [] => (h, data, [], false)
  | h, data, b :: rest =>
    match barcode_push h data b with
    | (h', data', true) => barcode_feed h' data' rest
    | (h', data', false) => (h', data', b :: rest, true)

/-- When a push accepts its byte, the Accumulate loop continues with the
updated state. -/
theorem barcode_feed_cons_accept {h h' : BarcodeHandler} {data data' : List Nat}
    {b : Nat} (bytes : List Nat) (hp : barcode_push h data b = (h', data', true)) :
    barcode_feed h data (b :: bytes) = barcode_feed h' data' bytes := by
  simp only [barcode_feed]
  rw [hp]

/-- When a push refuses its byte, the Accumulate loop stops and returns
the byte to the stream. -/
theorem barcode_feed_cons_done {h h' : BarcodeHandler} {data data' : List Nat}
    {b : Nat} (bytes : List Nat) (hp : barcode_push h data b = (h', data', false)) :
    barcode_feed h data (b :: bytes) = (h', data', b :: bytes, true) := by
  simp only [barcode_feed]
  rw [hp]

/-- In NUL-terminated mode, a push with the buffer not ending in NUL
appends the byte and accepts. -/
theorem barcode_push_nul_accept (h : BarcodeHandler)
    (hacc : h.accept_data = true) (henc : h.encoding = EncodingFunction.NulTerminated)
    (data : List Nat) (byte : Nat) (hlast : data.getLast?.getD 1 ≠ 0) :
    barcode_push h data byte = (h, data ++ [byte], true) := by
  simp [barcode_push, hacc, henc, hlast]

/-- In NUL-terminated mode, a push with the buffer ending in NUL pops
the NUL and refuses the byte. -/
theorem barcode_push_nul_done (h : BarcodeHandler)
    (hacc : h.accept_data = true) (henc : h.encoding = EncodingFunction.NulTerminated)
    (data : List Nat) (byte : Nat) (hlast : data.getLast?.getD 1 = 0) :
    barcode_push h data byte = (h, data.dropLast, false) := by
  simp [barcode_push, hacc, henc, hlast]

/-- In explicit-size mode with capacity recorded and room left, a push
appends the byte and accepts. -/
theorem barcode_push_sized_accept (h : BarcodeHandler)
    (hacc : h.accept_data = true) (henc : h.encoding = EncodingFunction.ExplicitSize)
    (hcap : h.has_capacity = true) (data : List Nat) (byte : Nat)
    (hroom : data.length < h.capacity) :
    barcode_push h data byte = (h, data ++ [byte], true) := by
  simp [barcode_push, hacc, henc, hcap, hroom]

/-- In explicit-size mode with the buffer full, a push refuses the
byte. -/
theorem barcode_push_sized_done (h : BarcodeHandler)
    (hacc : h.accept_data = true) (henc : h.encoding = EncodingFunction.ExplicitSize)
    (hcap : h.has_capacity = true) (data : List Nat) (byte : Nat)
    (hfull : ¬ data.length < h.capacity) :
    barcode_push h data byte = (h, data, false) := by
  simp [barcode_push, hacc, henc, hcap, hfull]

/-- Feeding a NUL-free block, then a NUL, then anything further: every
byte of the block is appended, the NUL is appended and popped again, and
the push that follows the NUL refuses its byte.  The buffer must not
already end in a NUL. -/
theorem barcode_feed_nul_block (h : BarcodeHandler)
    (hacc : h.accept_data = true) (henc : h.encoding = EncodingFunction.NulTerminated) :
    ∀ (p data : List Nat), (0 : Nat) ∉ p → data.getLast?.getD 1 ≠ 0 →
    ∀ (b : Nat) (rest : List Nat),
      barcode_feed h data (p ++ 0 :: b :: rest) = (h, data ++ p, b :: rest, true) := by
  intro p
  induction p with
  | nil =>
    intro data _ hlast b rest
    have hlast2 : (data ++ [0]).getLast?.getD 1 = 0 := by
      simp [List.getLast?_concat]
    rw [List.nil_append,
      barcode_feed_cons_accept _ (barcode_push_nul_accept h hacc henc data 0 hlast),
      barcode_feed_cons_done _ (barcode_push_nul_done h hacc henc (data ++ [0]) b hlast2)]
    simp
  | cons a p ih =>
    intro data hmem hlast b rest
    have ha : a ≠ 0 := fun hz => hmem (hz ▸ List.mem_cons_self a p)
    have hmem' : (0 : Nat) ∉ p := fun hz => hmem (List.mem_cons_of_mem a hz)
    have hlast' : (data ++ [a]).getLast?.getD 1 ≠ 0 := by
      simpa [List.getLast?_concat] using ha
    rw [List.cons_append,
      barcode_feed_cons_accept _ (barcode_push_nul_accept h hacc henc data a hlast),
      ih (data ++ [a]) hmem' hlast' b rest]
    simp

/-- Feeding an explicit-size handler whose remaining capacity equals the
length of the block: the block is consumed and the next byte refused. -/
theorem barcode_feed_sized_block (h : BarcodeHandler)
    (hacc : h.accept_data = true) (henc : h.encoding = EncodingFunction.ExplicitSize)
    (hcap : h.has_capacity = true) :
    ∀ (p data : List Nat), data.length + p.length = h.capacity →
    ∀ (b : Nat) (rest : List Nat),
      barcode_feed h data (p ++ b :: rest) = (h, data ++ p, b :: rest, true) := by
  intro p
  induction p with
  | nil =>
    intro data hlen b rest
    have hfull : ¬ data.length < h.capacity := by simp at hlen; omega
    rw [List.nil_append,
      barcode_feed_cons_done _ (barcode_push_sized_done h hacc henc hcap data b hfull)]
    simp
  | cons a p ih =>
    intro data hlen b rest
    have hroom : data.length < h.capacity := by simp at hlen; omega
    have hlen' : (data ++ [a]).length + p.length = h.capacity := by simp at hlen ⊢; omega
    rw [List.cons_append,
      barcode_feed_cons_accept _ (barcode_push_sized_accept h hacc henc hcap data a hroom),
      ih (data ++ [a]) hlen' b rest]
    simp

/-- The selector push: the first byte records the type and switches the
handler into data mode. -/
theorem barcode_push_selector (m : Nat) (data : List Nat) :
    barcode_push barcode_new data m =
      ({ kind := barcode_kind_of m,
         kind_id := m,
         encoding :=
           if m ≤ 6 then EncodingFunction.NulTerminated
           else if 65 ≤ m ∧ m ≤ 79 then EncodingFunction.ExplicitSize
           else EncodingFunction.Unknown,
         capacity := 0,
         has_capacity := false,
         accept_data := true,
         raw_params := [m] }, data, true) := rfl

/-- In explicit-size mode the first data-phase byte is recorded as the
capacity. -/
theorem barcode_push_capacity (h : BarcodeHandler)
    (hacc : h.accept_data = true) (henc : h.encoding = EncodingFunction.ExplicitSize)
    (hnc : h.has_capacity = false) (data : List Nat) (c : Nat) :
    barcode_push h data c =
      ({ h with
          raw_params := h.raw_params ++ [c],
          capacity := c,
          has_capacity := true }, data, true) := by
  simp [barcode_push, hacc, henc, hnc]

/-- In unknown-encoding mode, every push refuses its byte. -/
theorem barcode_push_unknown_done (h : BarcodeHandler)
    (hacc : h.accept_data = true) (henc : h.encoding = EncodingFunction.Unknown)
    (data : List Nat) (b : Nat) :
    barcode_push h data b = (h, data, false) := by
  simp [barcode_push, hacc, henc]

/-- Default barcode settings from Context::default (context.rs). -/
structure BarcodeContext where
  width : Nat
  height : Nat
  deriving DecidableEq

/-- BarcodeContext defaults in Context::default: point width 3, point
height 40. -/
def default_barcode_context : BarcodeContext :=
  { width := 3, height := 40 }

/-- C2: the first pushed byte selects the encoding.  A selector m ≤ 6
gives a NUL-terminated payload: data bytes are accepted until a NUL is
seen, the NUL is popped, and push then returns false, leaving exactly
the bytes before the NUL; in particular feeding 04 'A' 'B' 'C' 00 (the
payload of 1D 6B 04 "ABC" 00) completes with kind Code39 and payload
"ABC", and the context defaults give point width 3 and point height 40.
A selector 65 ≤ m ≤ 79 reads a capacity byte c and then accepts exactly
c data bytes (the capacity byte not entering the payload) before
refusing the next byte.  Any other selector consumes nothing further:
the next push returns false with an empty payload. -/
theorem c2_barcode_push_encodings :
    (∀ (m : Nat), m ≤ 6 → ∀ (p : List Nat), (0 : Nat) ∉ p →
      ∀ (b : Nat) (rest : List Nat),
        ∃ h' : BarcodeHandler,
          barcode_feed barcode_new [] (m :: (p ++ 0 :: b :: rest)) =
            (h', p, b :: rest, true) ∧
          h'.kind = barcode_kind_of m ∧ h'.encoding = EncodingFunction.NulTerminated) ∧
    (∀ (m : Nat), 65 ≤ m → m ≤ 79 → ∀ (c : Nat) (p : List Nat), p.length = c →
      ∀ (b : Nat) (rest : List Nat),
        ∃ h' : BarcodeHandler,
          barcode_feed barcode_new [] (m :: c :: (p ++ b :: rest)) =
            (h', p, b :: rest, true) ∧
          h'.kind = barcode_kind_of m ∧ h'.encoding = EncodingFunction.ExplicitSize ∧
          h'.capacity = c) ∧
    (∀ (m : Nat), ¬ m ≤ 6 → ¬ (65 ≤ m ∧ m ≤ 79) →
      ∀ (b : Nat) (rest : List Nat),
        ∃ h' : BarcodeHandler,
          barcode_feed barcode_new [] (m :: b :: rest) = (h', [], b :: rest, true)) ∧
    (∀ (b : Nat) (rest : List Nat),
      ∃ h' : BarcodeHandler,
        barcode_feed barcode_new [] (4 :: 65 :: 66 :: 67 :: 0 :: b :: rest) =
          (h', [65, 66, 67], b :: rest, true) ∧
        h'.kind = BarcodeType.Code39) ∧
    default_barcode_context.width = 3 ∧ default_barcode_context.height = 40 := by
  refine ⟨?_, ?_, ?_, ?_, rfl, rfl⟩
  · intro m hm p hp b rest
    refine ⟨⟨barcode_kind_of m, m, EncodingFunction.NulTerminated,
      0, false, true, [m]⟩, ?_, rfl, rfl⟩
    have e1 : barcode_push barcode_new [] m =
        (⟨barcode_kind_of m, m, EncodingFunction.NulTerminated,
          0, false, true, [m]⟩, [], true) := by
      rw [barcode_push_selector, if_pos hm]
    calc barcode_feed barcode_new [] (m :: (p ++ 0 :: b :: rest))
        = barcode_feed ⟨barcode_kind_of m, m, EncodingFunction.NulTerminated,
            0, false, true, [m]⟩ [] (p ++ 0 :: b :: rest) :=
          barcode_feed_cons_accept _ e1
      _ = (⟨barcode_kind_of m, m, EncodingFunction.NulTerminated,
            0, false, true, [m]⟩, [] ++ p, b :: rest, true) :=
          barcode_feed_nul_block _ rfl rfl p [] hp (by simp) b rest
      _ = _ := by simp
  · intro m hm1 hm2 c p hlen b rest
    have hm : ¬ m ≤ 6 := by omega
    refine ⟨⟨barcode_kind_of m, m, EncodingFunction.ExplicitSize,
      c, true, true, [m, c]⟩, ?_, rfl, rfl, rfl⟩
    have e1 : barcode_push barcode_new [] m =
        (⟨barcode_kind_of m, m, EncodingFunction.ExplicitSize,
          0, false, true, [m]⟩, [], true) := by
      rw [barcode_push_selector, if_neg hm, if_pos ⟨hm1, hm2⟩]
    have e2 : barcode_push ⟨barcode_kind_of m, m, EncodingFunction.ExplicitSize,
        0, false, true, [m]⟩ [] c =
        (⟨barcode_kind_of m, m, EncodingFunction.ExplicitSize,
          c, true, true, [m, c]⟩, [], true) := by
      rw [barcode_push_capacity _ rfl rfl rfl]
      simp
    calc barcode_feed barcode_new [] (m :: c :: (p ++ b :: rest))
        = barcode_feed ⟨barcode_kind_of m, m, EncodingFunction.ExplicitSize,
            0, false, true, [m]⟩ [] (c :: (p ++ b :: rest)) :=
          barcode_feed_cons_accept _ e1
      _ = barcode_feed ⟨barcode_kind_of m, m, EncodingFunction.ExplicitSize,
            c, true, true, [m, c]⟩ [] (p ++ b :: rest) :=
          barcode_feed_cons_accept _ e2
      _ = (⟨barcode_kind_of m, m, EncodingFunction.ExplicitSize,
            c, true, true, [m, c]⟩, [] ++ p, b :: rest, true) :=
          barcode_feed_sized_block _ rfl rfl rfl p [] (by simpa using hlen) b rest
      _ = _ := by simp
  · intro m hm hrange b rest
    refine ⟨⟨barcode_kind_of m, m, EncodingFunction.Unknown,
      0, false, true, [m]⟩, ?_⟩
    have e1 : barcode_push barcode_new [] m =
        (⟨barcode_kind_of m, m, EncodingFunction.Unknown,
          0, false, true, [m]⟩, [], true) := by
      rw [barcode_push_selector, if_neg hm, if_neg hrange]
    calc barcode_feed barcode_new [] (m :: b :: rest)
        = barcode_feed ⟨barcode_kind_of m, m, EncodingFunction.Unknown,
            0, false, true, [m]⟩ [] (b :: rest) :=
          barcode_feed_cons_accept _ e1
      _ = _ := barcode_feed_cons_done _ (barcode_push_unknown_done _ rfl rfl [] b)
  · intro b rest
    refine ⟨⟨BarcodeType.Code39, 4, EncodingFunction.NulTerminated,
      0, false, true, [4]⟩, ?_, rfl⟩
    have e1 : barcode_push barcode_new [] 4 =
        (⟨BarcodeType.Code39, 4, EncodingFunction.NulTerminated,
          0, false, true, [4]⟩, [], true) := by
      rw [barcode_push_selector]
      simp [barcode_kind_of]
    calc barcode_feed barcode_new [] (4 :: 65 :: 66 :: 67 :: 0 :: b :: rest)
        = barcode_feed ⟨BarcodeType.Code39, 4, EncodingFunction.NulTerminated,
            0, false, true, [4]⟩ [] ([65, 66, 67] ++ 0 :: b :: rest) :=
          barcode_feed_cons_accept _ e1
      _ = (⟨BarcodeType.Code39, 4, EncodingFunction.NulTerminated,
            0, false, true, [4]⟩, [] ++ [65, 66, 67], b :: rest, true) :=
          barcode_feed_nul_block _ rfl rfl [65, 66, 67] [] (by decide) (by simp) b rest
      _ = _ := by simp

/-- C2 witness: the NUL-terminated branch at selector 4 with payload
"AB", the explicit-size branch at selector 73 with capacity 2, and the
unknown-selector branch at 90, each at concrete bytes. -/
theorem c2_witness :
    (∃ h' : BarcodeHandler,
      barcode_feed barcode_new [] (4 :: ([65, 66] ++ 0 :: 10 :: [])) =
        (h', [65, 66], 10 :: [], true) ∧
      h'.kind = barcode_kind_of 4 ∧ h'.encoding = EncodingFunction.NulTerminated) ∧
    (∃ h' : BarcodeHandler,
      barcode_feed barcode_new [] (73 :: 2 :: ([72, 73] ++ 10 :: [])) =
        (h', [72, 73], 10 :: [], true) ∧
      h'.kind = barcode_kind_of 73 ∧ h'.encoding = EncodingFunction.ExplicitSize ∧
      h'.capacity = 2) ∧
    (∃ h' : BarcodeHandler,
      barcode_feed barcode_new [] (90 :: 10 :: []) = (h', [], 10 :: [], true)) :=
  ⟨c2_barcode_push_encodings.1 4 (by decide) [65, 66] (by decide) 10 [],
   c2_barcode_push_encodings.2.1 73 (by decide) (by decide) 2 [72, 73] (by decide) 10 [],
   c2_barcode_push_encodings.2.2.1 90 (by decide) (by decide) 10 []⟩

/-! ## Raster bit image handler (commands/raster_bit_image.rs) -/

/-- The mutable state of the GS v 0 handler, from
commands/raster_bit_image.rs. -/
structure RasterHandler where
  width : Nat
  height : Nat
  capacity : Nat
  scaling : Nat
  accept_data : Bool
  params : List Nat
  deriving DecidableEq

/-- The fresh handler produced by the GS v 0 command factory. -/
def raster_new : RasterHandler :=
  { width := 0, height := 0, capacity := 0, scaling := 0,
    accept_data := false, params := [] }

/-- Handler::push from commands/raster_bit_image.rs.  The first four
bytes (scaling, xL, xH, yL) are buffered; the fifth byte (yH) triggers
the header parse: width-bytes = xL + xH*256, height = yL + yH*256,
capacity = width-bytes * height, pixel width = width-bytes * 8, and the
buffer is cleared.  Afterwards exactly capacity data bytes are accepted
before push refuses. -/
def raster_push (h : RasterHandler) (data : List Nat) (byte : Nat) :
    RasterHandler × List Nat × Bool :=
  if h.accept_data = false then
    if data.length < 4 then (h, data ++ [byte], true)
    else
      let scaling := data.getD 0 0
      let xl := data.getD 1 0
      let xh := data.getD 2 0
      let yl := data.getD 3 0
      let yh := byte
      ({ h with
          scaling := scaling,
          width := (xl + xh * 256) * 8,
          height := yl + yh * 256,
          capacity := (xl + xh * 256) * (yl + yh * 256),
          params := [scaling, xl, xh, yl, yh],
          accept_data := true }, [], true)
  else if h.capacity ≤ data.length then (h, data, false)
  else (h, data ++ [byte], true)

/-- The Accumulate loop for the raster handler: offer bytes until push
refuses one; the refused byte is pushed back.  Modelled from the spec's
parser state machine (parser.rs is not under src/). -/
def raster_feed : RasterHandler → List Nat → List Nat →
    RasterHandler × List Nat × List Nat × Bool
  | h, data, [] => (h, data, [], false)
  | h, data, b :: rest =>
    match raster_push h data b with
    | (h', data', true) => raster_feed h' data' rest
    | (h', data', false) => (h', data', b :: rest, true)

/-- The stretch-factor table of Handler::get_graphics
(commands/raster_bit_image.rs): 0/48 give 1x1, 1/49 give 2x1, 2/50 give
1x2, 3/52 give 2x2, everything else 1x1. -/
def raster_stretch (scaling : Nat) : Nat × Nat :=
  if scaling = 0 ∨ scaling = 48 then (1, 1)
  else if scaling = 1 ∨ scaling = 49 then (2, 1)
  else if scaling = 2 ∨ scaling = 50 then (1, 2)
  else if scaling = 3 ∨ scaling = 52 then (2, 2)
  else (1, 1)

/-- The image emitted by the raster handler, reduced to the fields the
claims constrain. -/
structure RasterImageShape where
  w : Nat
  h : Nat
  stretch : Nat × Nat
  deriving DecidableEq

/-- Modelled from the spec: the constructor
GraphicsCommand::image_from_raster_bytes_single_color called by
Handler::get_graphics is not under src/; per the spec the handler emits
a Block-flow monochrome image whose pixel width and height are the
handler's width and height fields and whose stretch is the scaling
table's value. -/
def raster_get_graphics (h : RasterHandler) : RasterImageShape :=
  { w := h.width, h := h.height, stretch := raster_stretch h.scaling }

/-- When the header phase still buffers (fewer than four bytes seen),
push appends the byte. -/
theorem raster_push_header_buffer (h : RasterHandler)
    (hacc : h.accept_data = false) (data : List Nat) (byte : Nat)
    (hlen : data.length < 4) :
    raster_push h data byte = (h, data ++ [byte], true) := by
  simp [raster_push, hacc, hlen]

/-- The fifth header byte triggers the header parse. -/
theorem raster_push_header_parse (h : RasterHandler)
    (hacc : h.accept_data = false) (s xl xh yl yh : Nat) :
    raster_push h [s, xl, xh, yl] yh =
      ({ h with
          scaling := s,
          width := (xl + xh * 256) * 8,
          height := yl + yh * 256,
          capacity := (xl + xh * 256) * (yl + yh * 256),
          params := [s, xl, xh, yl, yh],
          accept_data := true }, [], true) := by
  simp [raster_push, hacc]

/-- In data mode with room left, push appends the byte. -/
theorem raster_push_data_accept (h : RasterHandler)
    (hacc : h.accept_data = true) (data : List Nat) (byte : Nat)
    (hroom : ¬ h.capacity ≤ data.length) :
    raster_push h data byte = (h, data ++ [byte], true) := by
  simp [raster_push, hacc, hroom]

/-- In data mode with the buffer full, push refuses the byte. -/
theorem raster_push_data_done (h : RasterHandler)
    (hacc : h.accept_data = true) (data : List Nat) (byte : Nat)
    (hfull : h.capacity ≤ data.length) :
    raster_push h data byte = (h, data, false) := by
  simp [raster_push, hacc, hfull]

/-- When a push accepts its byte, the raster Accumulate loop continues
with the updated state. -/
theorem raster_feed_cons_accept {h h' : RasterHandler} {data data' : List Nat}
    {b : Nat} (bytes : List Nat) (hp : raster_push h data b = (h', data', true)) :
    raster_feed h data (b :: bytes) = raster_feed h' data' bytes := by
  simp only [raster_feed]
  rw [hp]

/-- When a push refuses its byte, the raster Accumulate loop stops. -/
theorem raster_feed_cons_done {h h' : RasterHandler} {data data' : List Nat}
    {b : Nat} (bytes : List Nat) (hp : raster_push h data b = (h', data', false)) :
    raster_feed h data (b :: bytes) = (h', data', b :: bytes, true) := by
  simp only [raster_feed]
  rw [hp]

/-- Feeding a data block whose length fills the remaining capacity
consumes it all and refuses the next byte. -/
theorem raster_feed_data_block (h : RasterHandler) (hacc : h.accept_data = true) :
    ∀ (p data : List Nat), data.length + p.length = h.capacity →
    ∀ (b : Nat) (rest : List Nat),
      raster_feed h data (p ++ b :: rest) = (h, data ++ p, b :: rest, true) := by
  intro p
  induction p with
  | nil =>
    intro data hlen b rest
    have hfull : h.capacity ≤ data.length := by simp at hlen; omega
    rw [List.nil_append,
      raster_feed_cons_done _ (raster_push_data_done h hacc data b hfull)]
    simp
  | cons a p ih =>
    intro data hlen b rest
    have hroom : ¬ h.capacity ≤ data.length := by simp at hlen; omega
    have hlen' : (data ++ [a]).length + p.length = h.capacity := by
      simp at hlen ⊢; omega
    rw [List.cons_append,
      raster_feed_cons_accept _ (raster_push_data_accept h hacc data a hroom),
      ih (data ++ [a]) hlen' b rest]
    simp

/-- C4: after the five header bytes scaling, xL, xH, yL, yH, the GS v 0
handler accepts exactly (xL + 256*xH) * (yL + 256*yH) payload bytes and
then refuses the next byte; the emitted image has pixel width
8 * (xL + 256*xH) and height yL + 256*yH; and the stretch factors are
1x1 for scaling 0 and 48, 2x1 for 1 and 49, 1x2 for 2 and 50, 2x2 for
both 3 and 52, and 1x1 for every other value, 51 included. -/
theorem c4_raster_bit_image :
    (∀ (s xl xh yl yh : Nat) (p : List Nat),
      p.length = (xl + 256 * xh) * (yl + 256 * yh) →
      ∀ (b : Nat) (rest : List Nat),
        ∃ h' : RasterHandler,
          raster_feed raster_new [] (s :: xl :: xh :: yl :: yh :: (p ++ b :: rest)) =
            (h', p, b :: rest, true) ∧
          raster_get_graphics h' =
            { w := 8 * (xl + 256 * xh), h := yl + 256 * yh,
              stretch := raster_stretch s }) ∧
    raster_stretch 0 = (1, 1) ∧ raster_stretch 48 = (1, 1) ∧
    raster_stretch 1 = (2, 1) ∧ raster_stretch 49 = (2, 1) ∧
    raster_stretch 2 = (1, 2) ∧ raster_stretch 50 = (1, 2) ∧
    raster_stretch 3 = (2, 2) ∧ raster_stretch 52 = (2, 2) ∧
    raster_stretch 51 = (1, 1) ∧
    (∀ s : Nat, s ∉ [0, 48, 1, 49, 2, 50, 3, 52] → raster_stretch s = (1, 1)) := by
  refine ⟨?_, rfl, rfl, rfl, rfl, rfl, rfl, rfl, rfl, rfl, ?_⟩
  · intro s xl xh yl yh p hlen b rest
    refine ⟨⟨(xl + xh * 256) * 8, yl + yh * 256, (xl + xh * 256) * (yl + yh * 256),
      s, true, [s, xl, xh, yl, yh]⟩, ?_, ?_⟩
    · have e1 : raster_push raster_new [] s = (raster_new, [s], true) :=
        raster_push_header_buffer _ rfl [] s (by decide)
      have e2 : raster_push raster_new [s] xl = (raster_new, [s, xl], true) :=
        raster_push_header_buffer _ rfl [s] xl (by simp)
      have e3 : raster_push raster_new [s, xl] xh = (raster_new, [s, xl, xh], true) :=
        raster_push_header_buffer _ rfl [s, xl] xh (by simp)
      have e4 : raster_push raster_new [s, xl, xh] yl =
          (raster_new, [s, xl, xh, yl], true) :=
        raster_push_header_buffer _ rfl [s, xl, xh] yl (by simp)
      have e5 := raster_push_header_parse raster_new rfl s xl xh yl yh
      calc raster_feed raster_new [] (s :: xl :: xh :: yl :: yh :: (p ++ b :: rest))
          = raster_feed raster_new [s] (xl :: xh :: yl :: yh :: (p ++ b :: rest)) :=
            raster_feed_cons_accept _ e1
        _ = raster_feed raster_new [s, xl] (xh :: yl :: yh :: (p ++ b :: rest)) :=
            raster_feed_cons_accept _ e2
        _ = raster_feed raster_new [s, xl, xh] (yl :: yh :: (p ++ b :: rest)) :=
            raster_feed_cons_accept _ e3
        _ = raster_feed raster_new [s, xl, xh, yl] (yh :: (p ++ b :: rest)) :=
            raster_feed_cons_accept _ e4
        _ = raster_feed ⟨(xl + xh * 256) * 8, yl + yh * 256,
              (xl + xh * 256) * (yl + yh * 256), s, true, [s, xl, xh, yl, yh]⟩ []
              (p ++ b :: rest) := raster_feed_cons_accept _ (by rw [e5])
        _ = (⟨(xl + xh * 256) * 8, yl + yh * 256,
              (xl + xh * 256) * (yl + yh * 256), s, true, [s, xl, xh, yl, yh]⟩,
              [] ++ p, b :: rest, true) := by
            refine raster_feed_data_block _ rfl p [] ?_ b rest
            simpa [Nat.mul_comm] using hlen
        _ = _ := by simp
    · simp [raster_get_graphics]
      omega
  · intro s hs
    simp only [List.mem_cons, List.not_mem_nil, or_false] at hs
    push_neg at hs
    obtain ⟨h0, h48, h1, h49, h2, h50, h3, h52⟩ := hs
    simp [raster_stretch, h0, h48, h1, h49, h2, h50, h3, h52]

/-- C4 witness: the header 3, 2, 0, 1, 0 (scaling 2x2, two width bytes,
one row) with a two-byte payload, matching the spec's raster scaling
scenario; and the stretch table away from the listed codes. -/
theorem c4_witness :
    (∃ h' : RasterHandler,
      raster_feed raster_new [] (3 :: 2 :: 0 :: 1 :: 0 :: ([170, 85] ++ 29 :: [])) =
        (h', [170, 85], 29 :: [], true) ∧
      raster_get_graphics h' =
        { w := 16, h := 1, stretch := (2, 2) }) ∧
    raster_stretch 4 = (1, 1) := by
  constructor
  · have h := c4_raster_bit_image.1 3 2 0 1 0 [170, 85] (by decide) 29 []
    simpa using h
  · exact c4_raster_bit_image.2.2.2.2.2.2.2.2.2.2 4 (by decide)

/-! ## Layout engine: justification and tabs (renderer.rs, context.rs) -/

/-- Text justification modes, from context.rs. -/
inductive TextJustify where
  | Left
  | Center
  | Right
  deriving DecidableEq, Fintype

/-- The per-line x-offset computation of the justification loop in
Renderer::process_text (renderer.rs).  line_offset starts at 0; Right
assigns max_width - line_width with an unchecked u32 subtraction, which
is modelled as returning none when line_width exceeds max_width (the
subtraction underflows: a panic in debug builds, a wrap in release
builds); Center assigns (max_width - line_width) / 2 only when
line_width < max_width; Left leaves the offset at 0. -/
def justify_line_offset (j : TextJustify) (max_width line_width : Nat) : Option Nat :=
  match j with
  | TextJustify.Right =>
      if line_width ≤ max_width then some (max_width - line_width) else none
  | TextJustify.Center =>
      some (if line_width < max_width then (max_width - line_width) / 2 else 0)
  | TextJustify.Left => some 0

/-- Context::calculate_justification from context.rs: widths beyond the
render width yield 0 up front, then Center halves the remainder and
Right takes it whole (the wildcard arm, covering Left, yields 0). -/
def calculate_justification (j : TextJustify) (render_width w : Nat) : Nat :=
  if render_width < w then 0
  else
    match j with
    | TextJustify.Center =>
        if 0 < render_width - w then (render_width - w) / 2 else 0
    | TextJustify.Right => render_width - w
    | _ => 0

/-- C6 counterexample: a line of width 11 on a render width of 10 under
Right justification makes the loop's unchecked u32 subtraction
underflow (modelled as none) instead of saturating to the claimed 0. -/
theorem c6_counterexample :
    justify_line_offset TextJustify.Right 10 11 = none ∧
    (none : Option Nat) ≠ some 0 := by
  decide

/-- C6 (amended): the justification loop never panics and matches the
claim whenever line_width ≤ render_width — Left gives 0, Center gives
(render_width - line_width) / 2 when the difference is positive and 0
otherwise, Right gives render_width - line_width — but for Right with
line_width > render_width the loop's unchecked subtraction underflows
instead of saturating; the saturating behaviour claimed does hold for
Context::calculate_justification, whose Right offset is the saturated
difference for every width. -/
theorem c6_justification :
    (∀ max_width line_width : Nat,
      justify_line_offset TextJustify.Left max_width line_width = some 0) ∧
    (∀ max_width line_width : Nat,
      justify_line_offset TextJustify.Center max_width line_width =
        some (if line_width < max_width then (max_width - line_width) / 2 else 0)) ∧
    (∀ max_width line_width : Nat, line_width ≤ max_width →
      justify_line_offset TextJustify.Right max_width line_width =
        some (max_width - line_width)) ∧
    (∀ max_width line_width : Nat, max_width < line_width →
      justify_line_offset TextJustify.Right max_width line_width = none) ∧
    (∀ render_width w : Nat,
      calculate_justification TextJustify.Right render_width w = render_width - w ∧
      calculate_justification TextJustify.Center render_width w = (render_width - w) / 2 ∧
      calculate_justification TextJustify.Left render_width w = 0) := by
  refine ⟨fun _ _ => rfl, fun _ _ => rfl, ?_, ?_, ?_⟩
  · intro mw lw h
    simp [justify_line_offset, h]
  · intro mw lw h
    simp [justify_line_offset]
    omega
  · intro rw w
    refine ⟨?_, ?_, ?_⟩
    · by_cases h : rw < w
      · simp [calculate_justification, h]
        omega
      · simp [calculate_justification, h]
    · by_cases h : rw < w
      · have hz : rw - w = 0 := by omega
        simp [calculate_justification, h, hz]
      · by_cases h0 : 0 < rw - w
        · simp [calculate_justification, h, h0]
        · have hz : rw - w = 0 := by omega
          simp [calculate_justification, h, hz]
    · by_cases h : rw < w
      · simp [calculate_justification, h]
      · simp [calculate_justification, h]

/-- C6 witness: the amended theorem at render width 10 with line width 4
under Right (offset 6) and at line width 11 under Right (underflow). -/
theorem c6_witness :
    justify_line_offset TextJustify.Right 10 4 = some 6 ∧
    justify_line_offset TextJustify.Right 10 11 = none :=
  ⟨c6_justification.2.2.1 10 4 (by decide), c6_justification.2.2.2.1 10 11 (by decide)⟩

/-- The tab handling of Renderer::process_text (renderer.rs): starting
from position 0, walk the tab stops; before adding each stop's width the
current position is compared with current-x, and the first position that
is ≥ current-x becomes the new x; when the loop finishes without such a
position, x is unchanged. -/
def tab_go : List Nat → Nat → Nat → Nat → Nat
  | [], _, x, _ => x
  | t :: rest, cw, x, pos => if x ≤ pos then pos else tab_go rest cw x (pos + t * cw)

/-- The new current-x after a tab word unit, given the tab-stop widths,
the character width of the tab span, and the current x. -/
def tab_advance (tabs : List Nat) (cw x : Nat) : Nat :=
  tab_go tabs cw x 0

/-- The candidate positions the tab loop compares against: the running
sum of tab widths times character width, evaluated before each stop is
added — so 0 is the first candidate and the total sum is never one. -/
def tab_positions : List Nat → Nat → Nat → List Nat
  | [], _, _ => []
  | t :: rest, cw, pos => pos :: tab_positions rest cw (pos + t * cw)

/-- C7 counterexample: with the default 32 tab stops of 8 character
widths and character width 12, a tab arriving at current-x = 0 leaves x
at 0, not at the first tab stop position 96 as claimed, because position
0 (the running sum before any stop) already satisfies the loop's
non-strict comparison. -/
theorem c7_counterexample :
    tab_advance (List.replicate 32 8) 12 0 = 0 ∧ (0 : Nat) ≠ 8 * 12 := by
  decide

/-- C7 (amended): a tab advances current-x to the first candidate
position p with current-x ≤ p, where the candidates are the running sums
of tabs[i] * character_width taken before each stop (so they start at 0
and exclude the total sum); comparison is non-strict, so a tab is a
no-op whenever current-x is 0 or sits exactly on a candidate position,
and it is a no-op when every candidate is below current-x. -/
theorem c7_tab_advance :
    ∀ (tabs : List Nat) (cw x : Nat),
      tab_advance tabs cw x =
        ((tab_positions tabs cw 0).find? (fun p => x ≤ p)).getD x ∧
      tab_advance tabs cw 0 = 0 := by
  have hgen : ∀ (tabs : List Nat) (cw x pos : Nat),
      tab_go tabs cw x pos =
        ((tab_positions tabs cw pos).find? (fun p => x ≤ p)).getD x := by
    intro tabs cw x
    induction tabs with
    | nil => intro pos; simp [tab_go, tab_positions]
    | cons t rest ih =>
      intro pos
      by_cases h : x ≤ pos
      · simp [tab_go, tab_positions, h, List.find?]
      · simp only [tab_go, tab_positions, if_neg h, List.find?]
        have : (decide (x ≤ pos)) = false := by simpa using h
        rw [this]
        exact ih (pos + t * cw)
  intro tabs cw x
  refine ⟨hgen tabs cw x 0, ?_⟩
  cases tabs with
  | nil => rfl
  | cons t rest => simp [tab_advance, tab_go]

/-! ## Context positioning: offset_x_relative (context.rs) -/

/-- A rectangle of the context's coordinate model, from context.rs. -/
structure RenderArea where
  x : Nat
  y : Nat
  w : Nat
  h : Nat
  deriving DecidableEq

/-- The page-mode fields that positioning touches, from context.rs. -/
structure PageModeState where
  enabled : Bool
  render_area : RenderArea
  page_area : RenderArea
  deriving DecidableEq

/-- The graphics fields that positioning touches, from context.rs. -/
structure GraphicsState where
  render_area : RenderArea
  h_motion_unit : Nat
  deriving DecidableEq

/-- The slice of Context that offset_x_relative reads and writes. -/
structure ContextState where
  graphics : GraphicsState
  page_mode : PageModeState
  deriving DecidableEq

/-- Rust's i16::saturating_div truncates toward zero; the divisor here
is a u8 motion unit, so for a nonzero divisor saturation cannot occur
and the operation coincides with truncating division.  Division by zero
panics in Rust; the theorems assume the divisor nonzero. -/
def i16_saturating_div (a : Int) (b : Nat) : Int :=
  Int.tdiv a (Int.ofNat b)

/-- PageModeContext::offset_x_relative from context.rs: the render-area
x plus the offset, clamped below at 0 (Int.toNat performs the clamp of
the i32 negative test). -/
def PageModeState.offset_x_relative (p : PageModeState) (x : Int) : PageModeState :=
  { p with render_area :=
      { p.render_area with x := ((p.render_area.x : Int) + x).toNat } }

/-- Context::offset_x_relative from context.rs: the offset is divided by
the horizontal motion unit with saturating division, then applied to the
page-mode render area when page mode is enabled, and otherwise to the
main render area, clamped below at 0 in both cases. -/
def ContextState.offset_x_relative (c : ContextState) (x : Int) : ContextState :=
  let adj_x := i16_saturating_div x c.graphics.h_motion_unit
  if c.page_mode.enabled then
    { c with page_mode := c.page_mode.offset_x_relative adj_x }
  else
    { c with graphics :=
        { c.graphics with render_area :=
            { c.graphics.render_area with
                x := ((c.graphics.render_area.x : Int) + adj_x).toNat } } }

/-- Context::get_base_x from context.rs: 0 in standard mode, the page
area's x in page mode. -/
def ContextState.get_base_x (c : ContextState) : Nat :=
  if c.page_mode.enabled then c.page_mode.page_area.x else 0

/-- A page-mode context whose page area starts at x = 50 with the
render x currently at the base. -/
def c8_page_ctx : ContextState :=
  { graphics := { render_area := ⟨0, 0, 464, 0⟩, h_motion_unit := 1 },
    page_mode := { enabled := true,
                   render_area := ⟨50, 0, 100, 100⟩,
                   page_area := ⟨50, 0, 200, 200⟩ } }

/-- A standard-mode context with render x at 10 and motion unit 2. -/
def c8_std_ctx : ContextState :=
  { graphics := { render_area := ⟨10, 0, 464, 0⟩, h_motion_unit := 2 },
    page_mode := { enabled := false,
                   render_area := ⟨0, 0, 0, 0⟩,
                   page_area := ⟨0, 0, 0, 0⟩ } }

/-- C8 counterexample: in page mode with page_area.x = 50 and render x
at 50, offset_x_relative(-30) moves x to 20, strictly below the base-x
of 50, because the page-mode clamp floor is 0 rather than page_area.x. -/
theorem c8_counterexample :
    (c8_page_ctx.offset_x_relative (-30)).page_mode.render_area.x = 20 ∧
    c8_page_ctx.get_base_x = 50 ∧
    ¬ c8_page_ctx.get_base_x ≤ (c8_page_ctx.offset_x_relative (-30)).page_mode.render_area.x := by
  decide

/-- C8 (amended): for every context state and offset (the motion unit
being nonzero, as division by zero would panic), offset_x_relative sets
the active render-area x to the old x plus the scaled offset clamped
below at 0.  In standard mode the base-x is 0, so x never drops below
the base-x as claimed; in page mode the clamp floor is likewise 0 — not
page_area.x — so x can drop below the page-mode base-x. -/
theorem c8_offset_x_relative :
    ∀ (c : ContextState) (x : Int), c.graphics.h_motion_unit ≠ 0 →
      (c.page_mode.enabled = false →
        ((c.offset_x_relative x).graphics.render_area.x : Int) =
          max 0 ((c.graphics.render_area.x : Int) +
            i16_saturating_div x c.graphics.h_motion_unit) ∧
        c.get_base_x ≤ (c.offset_x_relative x).graphics.render_area.x) ∧
      (c.page_mode.enabled = true →
        ((c.offset_x_relative x).page_mode.render_area.x : Int) =
          max 0 ((c.page_mode.render_area.x : Int) +
            i16_saturating_div x c.graphics.h_motion_unit)) := by
  intro c x _
  constructor
  · intro hp
    constructor
    · simp only [ContextState.offset_x_relative, hp]
      simp
      omega
    · simp [ContextState.get_base_x, hp]
  · intro hp
    simp only [ContextState.offset_x_relative, PageModeState.offset_x_relative, hp]
    simp
    omega

/-- C8 witness: the amended theorem at the standard-mode context with
offset -7 and motion unit 2 (truncating division gives -3, so x moves
from 10 to 7 and stays at or above the base-x of 0). -/
theorem c8_witness :
    ((c8_std_ctx.offset_x_relative (-7)).graphics.render_area.x : Int) =
      max 0 ((c8_std_ctx.graphics.render_area.x : Int) +
        i16_saturating_div (-7) c8_std_ctx.graphics.h_motion_unit) ∧
    c8_std_ctx.get_base_x ≤ (c8_std_ctx.offset_x_relative (-7)).graphics.render_area.x :=
  (c8_offset_x_relative c8_std_ctx (-7) (by decide)).1 rfl

/-! ## Code128 code-set switches (commands/barcode.rs, get_graphics) -/

/-- Rust str::replace for a two-character pattern: scan left to right,
replacing each non-overlapping occurrence of the pattern c1 c2 by the
replacement and continuing after it. -/
def replace_pair (c1 c2 : Char) (r : List Char) : List Char → List Char
  | [] => []
  | [a] => [a]
  | a :: b :: rest =>
    if a = c1 ∧ b = c2 then r ++ replace_pair c1 c2 r rest
    else a :: replace_pair c1 c2 r (b :: rest)

/-- The encoder input built by the Code128 branch of
BarcodeHandler::get_graphics: the payload with the code-set switches
replaced, in order, by the sentinel characters À, Ɓ, Ć. -/
def code128_adjusted_data (p : List Char) : List Char :=
  replace_pair '{' 'C' ['Ć'] (replace_pair '{' 'B' ['Ɓ'] (replace_pair '{' 'A' ['À'] p))

/-- The HRI text built by the Code128 branch of
BarcodeHandler::get_graphics: the payload with the code-set switches
replaced, in order, by nothing. -/
def code128_hri_data (p : List Char) : List Char :=
  replace_pair '{' 'C' [] (replace_pair '{' 'B' [] (replace_pair '{' 'A' [] p))

/-- A payload without an opening brace is left unchanged by a
brace-led replacement. -/
theorem replace_pair_of_not_mem (c2 : Char) (r : List Char) :
    ∀ p : List Char, '{' ∉ p → replace_pair '{' c2 r p = p := by
  intro p
  induction p with
  | nil => intro _; rfl
  | cons a rest ih =>
    intro hmem
    have ha : a ≠ '{' := fun hz => hmem (hz ▸ List.mem_cons_self a rest)
    have hrest : '{' ∉ rest := fun hz => hmem (List.mem_cons_of_mem a hz)
    cases rest with
    | nil => rfl
    | cons b rest2 =>
      have : ¬ (a = '{' ∧ b = c2) := fun hab => ha hab.1
      simp only [replace_pair, if_neg this]
      rw [ih hrest]

/-- C9: the Code128 branch hands the encoder the payload with each
code-set switch replaced by its sentinel character while the HRI span
receives the payload with the switches removed; in particular the
payload "{BHello{CWorld" yields HRI text "HelloWorld" and encoder input
"ƁHelloĆWorld", and a payload without braces reaches both unchanged. -/
theorem c9_code128_code_sets :
    code128_hri_data "\x7bBHello\x7bCWorld".toList = "HelloWorld".toList ∧
    code128_adjusted_data "\x7bBHello\x7bCWorld".toList = "ƁHelloĆWorld".toList ∧
    (∀ p : List Char, '{' ∉ p →
      code128_adjusted_data p = p ∧ code128_hri_data p = p) := by
  refine ⟨by decide, by decide, ?_⟩
  intro p hp
  constructor
  · unfold code128_adjusted_data
    rw [replace_pair_of_not_mem 'A' ['À'] p hp]
    have h2 : '{' ∉ replace_pair '{' 'A' ['À'] p := by
      rw [replace_pair_of_not_mem 'A' ['À'] p hp]; exact hp
    rw [replace_pair_of_not_mem 'A' ['À'] p hp] at h2
    rw [replace_pair_of_not_mem 'B' ['Ɓ'] p hp,
      replace_pair_of_not_mem 'C' ['Ć'] p hp]
  · unfold code128_hri_data
    rw [replace_pair_of_not_mem 'A' [] p hp,
      replace_pair_of_not_mem 'B' [] p hp,
      replace_pair_of_not_mem 'C' [] p hp]

/-- C9 witness: the general no-brace clause of the theorem evaluated at
the payload "HELLO". -/
theorem c9_witness :
    code128_adjusted_data "HELLO".toList = "HELLO".toList ∧
    code128_hri_data "HELLO".toList = "HELLO".toList :=
  c9_code128_code_sets.2.2 "HELLO".toList (by decide)

/-! ## Images and stored graphics (graphics.rs,
subcommands/gs_graphics/define_download_graphics_raster.rs) -/

/-- Pixel formats of an Image, from graphics.rs. -/
inductive PixelType where
  | MonochromeByte
  | Monochrome (color : Nat)
  | MultipleTone (color : Nat) (planes : Nat)
  | Unknown
  deriving DecidableEq

/-- The Image record from graphics.rs. -/
structure Image where
  pixels : List Nat
  x : Nat
  y : Nat
  w : Nat
  h : Nat
  pixel_type : PixelType
  stretch : Nat × Nat
  advances_y : Bool
  upside_down : Bool
  deriving DecidableEq

/-- Storage class of a stored-image reference, from graphics.rs. -/
inductive ImageRefStorage where
  | Disc
  | Ram
  deriving DecidableEq

/-- Key of the stored-graphics map, from graphics.rs. -/
structure ImageRef where
  kc1 : Nat
  kc2 : Nat
  storage : ImageRefStorage
  deriving DecidableEq

/-- Result of Image::from_raster_data_with_ref: the guard returns no
image for short inputs, but the function can also panic (modelled
explicitly) when an unwrap fails. -/
inductive RasterRefResult where
  | panic
  | nothing
  | found (ref : ImageRef) (img : Image)
  deriving DecidableEq

/-- Image::from_raster_data_with_ref from graphics.rs: inputs shorter
than 8 bytes yield None; otherwise the bytes a, kc1, kc2, b, x1, x2, y1,
y2 are read (all guarded by the length check) and then data.get(8) is
unwrapped — an index that the guard does not cover, so an input of
exactly 8 bytes panics.  Width is x1 + 256*x2, height y1 + 256*y2, the
pixels are data[9..], and the reference is (kc1, kc2, storage). -/
def from_raster_data_with_ref (data : List Nat) (storage : ImageRefStorage) :
    RasterRefResult :=
  if data.length < 8 then RasterRefResult.nothing
  else
    match data.get? 8 with
    | none => RasterRefResult.panic
    | some _ =>
      let a := data.getD 0 0
      let kc1 := data.getD 1 0
      let kc2 := data.getD 2 0
      let b := data.getD 3 0
      let x1 := data.getD 4 0
      let x2 := data.getD 5 0
      let y1 := data.getD 6 0
      let y2 := data.getD 7 0
      RasterRefResult.found
        { kc1 := kc1, kc2 := kc2, storage := storage }
        { pixels := data.drop 9, x := 0, y := 0,
          w := x1 + x2 * 256, h := y1 + y2 * 256,
          pixel_type :=
            if a = 48 then PixelType.Monochrome 1
            else if a = 52 then PixelType.MultipleTone 1 b
            else PixelType.Unknown,
          stretch := (1, 1), advances_y := true, upside_down := false }

/-- The stored-graphics map of the context, keyed by image reference. -/
def StoredGraphics : Type := ImageRef → Option Image

/-- Handler::apply_context of the define-download-graphics-raster
subcommand: parse the payload with RAM storage and insert the image
under its reference; a parse of None leaves the map unchanged; a panic
of the parse propagates (modelled as none). -/
def define_download_graphics_raster (data : List Nat) (stored : StoredGraphics) :
    Option StoredGraphics :=
  match from_raster_data_with_ref data ImageRefStorage.Ram with
  | RasterRefResult.panic => none
  | RasterRefResult.nothing => some stored
  | RasterRefResult.found ref img =>
      some (fun q => if q = ref then some img else stored q)

/-- C10: applying the subcommand to a payload of exactly 8 bytes — a
full 8-byte header with nothing after it — panics: the length guard only
requires 8 bytes but data.get(8).unwrap() reads a ninth.  For payloads
of at least 9 bytes the parse succeeds and the image is inserted under
(data[1], data[2], RAM) with width data[4] + 256*data[5] and height
data[6] + 256*data[7]; payloads shorter than 8 bytes leave the map
unchanged. -/
theorem c10_define_download_graphics :
    (∀ (data : List Nat) (stored : StoredGraphics), data.length < 8 →
      define_download_graphics_raster data stored = some stored) ∧
    (∀ (data : List Nat) (stored : StoredGraphics), 9 ≤ data.length →
      ∃ img : Image,
        define_download_graphics_raster data stored =
          some (fun q =>
            if q = { kc1 := data.getD 1 0, kc2 := data.getD 2 0,
                     storage := ImageRefStorage.Ram } then some img else stored q) ∧
        img.w = data.getD 4 0 + 256 * data.getD 5 0 ∧
        img.h = data.getD 6 0 + 256 * data.getD 7 0) ∧
    (∀ stored : StoredGraphics,
      define_download_graphics_raster [48, 1, 2, 49, 3, 0, 2, 0] stored = none) ∧
    from_raster_data_with_ref [48, 1, 2, 49, 3, 0, 2, 0] ImageRefStorage.Ram =
      RasterRefResult.panic := by
  refine ⟨?_, ?_, ?_, by decide⟩
  · intro data stored hlen
    simp [define_download_graphics_raster, from_raster_data_with_ref, hlen]
  · intro data stored hlen
    have hguard : ¬ data.length < 8 := by omega
    have hne : data.get? 8 ≠ none := by
      rw [ne_eq, List.get?_eq_none]
      omega
    obtain ⟨v, hv⟩ := Option.ne_none_iff_exists'.mp hne
    refine ⟨{ pixels := data.drop 9,
              x := 0,
              y := 0,
              w := data.getD 4 0 + data.getD 5 0 * 256,
              h := data.getD 6 0 + data.getD 7 0 * 256,
              pixel_type :=
                if data.getD 0 0 = 48 then PixelType.Monochrome 1
                else if data.getD 0 0 = 52 then PixelType.MultipleTone 1 (data.getD 3 0)
                else PixelType.Unknown,
              stretch := (1, 1),
              advances_y := true,
              upside_down := false }, ?_, ?_, ?_⟩
    · simp only [define_download_graphics_raster, from_raster_data_with_ref,
        if_neg hguard, hv]
    · simp [Nat.mul_comm]
    · simp [Nat.mul_comm]
  · intro stored
    simp [define_download_graphics_raster, from_raster_data_with_ref]

/-- C10 witness: a 7-byte payload leaves the map unchanged and a 10-byte
payload inserts a 2x1 image under reference (7, 9, RAM), both applied to
the empty map. -/
theorem c10_witness :
    (define_download_graphics_raster [48, 7, 9, 49, 2, 0, 1] (fun _ => none) =
      some (fun _ => none)) ∧
    (∃ img : Image,
      define_download_graphics_raster [48, 7, 9, 49, 2, 0, 1, 0, 1, 255]
          (fun _ => none) =
        some (fun q =>
          if q = { kc1 := 7, kc2 := 9, storage := ImageRefStorage.Ram }
          then some img else none) ∧
      img.w = 2 ∧ img.h = 1) := by
  constructor
  · exact c10_define_download_graphics.1 [48, 7, 9, 49, 2, 0, 1] (fun _ => none)
      (by decide)
  · have h := c10_define_download_graphics.2.1 [48, 7, 9, 49, 2, 0, 1, 0, 1, 255]
      (fun _ => none) (by decide)
    simpa using h

/-! ## Grayscale unpacking of bit-packed images (graphics.rs) -/

/-- One packed byte unpacked MSB-first into its first k grayscale
pixels: 0 where the bit is set, 255 where it is clear — the pushes of
both branches of the as_grayscale loop. -/
def unpack_byte_gray (k b : Nat) : List Nat :=
  (List.range k).map (fun n => if b.testBit (7 - n) then 0 else 255)

/-- The number of pixels emitted for the last byte of each row by
Image::as_grayscale: w mod 8, or 8 when the width divides evenly. -/
def grayscale_padding (w : Nat) : Nat :=
  if w % 8 = 0 then 8 else w % 8

/-- Bytes per packed row: the claim's ceil(w/8). -/
def row_bytes (w : Nat) : Nat := (w + 7) / 8

/-- The loop of Image::as_grayscale from graphics.rs: col grows by 8 per
byte; once it reaches the width only the padding pixels are emitted and
col resets to 0 for the next row. -/
def as_grayscale_go (w pad : Nat) : List Nat → Nat → List Nat
  | [], _ => []
  | b :: rest, col =>
    if w ≤ col + 8 then unpack_byte_gray pad b ++ as_grayscale_go w pad rest 0
    else unpack_byte_gray 8 b ++ as_grayscale_go w pad rest (col + 8)

/-- Image::as_grayscale from graphics.rs: byte-per-pixel images are
returned as they are; bit-packed images are unpacked row by row with the
last byte of each row contributing only the padding pixels. -/
def Image.as_grayscale (img : Image) : List Nat :=
  if img.pixel_type = PixelType.MonochromeByte then img.pixels
  else as_grayscale_go img.w (grayscale_padding img.w) img.pixels 0

/-- One step of the as_grayscale loop. -/
theorem as_grayscale_go_cons (w pad b col : Nat) (rest : List Nat) :
    as_grayscale_go w pad (b :: rest) col =
      if w ≤ col + 8 then unpack_byte_gray pad b ++ as_grayscale_go w pad rest 0
      else unpack_byte_gray 8 b ++ as_grayscale_go w pad rest (col + 8) := rfl

/-- The padding pixel count lies in [1, 8]. -/
theorem grayscale_padding_bounds (w : Nat) :
    1 ≤ grayscale_padding w ∧ grayscale_padding w ≤ 8 := by
  unfold grayscale_padding
  split <;> omega

/-- A positive width splits into full bytes plus the padding pixels. -/
theorem row_bytes_decomp (w : Nat) (hw : 0 < w) :
    w = 8 * (row_bytes w - 1) + grayscale_padding w ∧ 1 ≤ row_bytes w := by
  unfold row_bytes grayscale_padding
  split <;> omega

theorem unpack_byte_gray_length (k b : Nat) : (unpack_byte_gray k b).length = k := by
  simp [unpack_byte_gray]

/-- The first k pixels of a fully unpacked byte are its k-pixel
unpacking. -/
theorem unpack_byte_gray_take (k b : Nat) (hk : k ≤ 8) :
    (unpack_byte_gray 8 b).take k = unpack_byte_gray k b := by
  unfold unpack_byte_gray
  rw [← List.map_take, List.take_range, Nat.min_eq_left hk]

/-- Unpacking one full row: with col at a byte boundary inside the row,
the loop emits the first w - col pixels of the row's full unpacking and
then continues with the next row at col 0. -/
theorem as_grayscale_go_row (w : Nat) (hw : 0 < w) :
    ∀ (bs : List Nat) (rest : List Nat) (j : Nat),
      bs.length + j = row_bytes w → 1 ≤ bs.length →
      as_grayscale_go w (grayscale_padding w) (bs ++ rest) (8 * j) =
        (bs.flatMap (unpack_byte_gray 8)).take (w - 8 * j) ++
          as_grayscale_go w (grayscale_padding w) rest 0 := by
  intro bs
  induction bs with
  | nil =>
    intro rest j _ h2
    simp at h2
  | cons b bs ih =>
    intro rest j hlen hne
    obtain ⟨hdec, hrb⟩ := row_bytes_decomp w hw
    obtain ⟨hp1, hp8⟩ := grayscale_padding_bounds w
    cases bs with
    | nil =>
      have hj : j = row_bytes w - 1 := by simp at hlen; omega
      have hcond : w ≤ 8 * j + 8 := by omega
      have hpadw : w - 8 * j = grayscale_padding w := by omega
      rw [List.cons_append, List.nil_append, as_grayscale_go_cons, if_pos hcond,
        List.flatMap_cons, List.flatMap_nil, List.append_nil, hpadw,
        unpack_byte_gray_take _ _ hp8]
    | cons c bs2 =>
      have hlt : 8 * j + 8 < w := by simp at hlen; omega
      have hcond : ¬ w ≤ 8 * j + 8 := by omega
      have hlen' : (c :: bs2).length + (j + 1) = row_bytes w := by
        simp at hlen ⊢; omega
      have hstep := ih rest (j + 1) hlen' (by simp)
      rw [List.cons_append, as_grayscale_go_cons, if_neg hcond,
        show 8 * j + 8 = 8 * (j + 1) by ring, hstep]
      conv_rhs => rw [List.flatMap_cons, List.take_append_eq_append_take,
        unpack_byte_gray_length]
      rw [List.take_of_length_le (l := unpack_byte_gray 8 b)
          (by rw [unpack_byte_gray_length]; omega),
        show w - 8 * j - 8 = w - 8 * (j + 1) by omega, List.append_assoc]

/-- Unpacking a whole image: each packed row contributes the first w
pixels of its full unpacking. -/
theorem as_grayscale_flatten (w : Nat) (hw : 0 < w) :
    ∀ rows : List (List Nat), (∀ row ∈ rows, row.length = row_bytes w) →
      as_grayscale_go w (grayscale_padding w) rows.flatten 0 =
        rows.flatMap (fun row => (row.flatMap (unpack_byte_gray 8)).take w) := by
  intro rows
  induction rows with
  | nil => intro _; rfl
  | cons r rows ih =>
    intro hlen
    have hr : r.length = row_bytes w := hlen r (List.mem_cons_self r rows)
    have hrow := as_grayscale_go_row w hw r rows.flatten 0 (by omega)
      (by rw [hr]; exact (row_bytes_decomp w hw).2)
    rw [List.flatten_cons, List.flatMap_cons]
    rw [show (0 : Nat) = 8 * 0 by ring, hrow,
      ih (fun row hrow2 => hlen row (List.mem_cons_of_mem r hrow2))]
    norm_num

/-- A fully unpacked row has 8 pixels per packed byte. -/
theorem flatMap_unpack_length (row : List Nat) :
    (row.flatMap (unpack_byte_gray 8)).length = 8 * row.length := by
  induction row with
  | nil => rfl
  | cons b row ih =>
    rw [List.flatMap_cons, List.length_append, unpack_byte_gray_length, ih,
      List.length_cons]
    ring

/-- An unpacked row truncated to the width has exactly w pixels. -/
theorem unpack_row_length (w : Nat) (row : List Nat)
    (hlen : row.length = row_bytes w) :
    ((row.flatMap (unpack_byte_gray 8)).take w).length = w := by
  rw [List.length_take, flatMap_unpack_length, hlen]
  unfold row_bytes
  omega

/-- Pixel i of an unpacked byte. -/
theorem unpack_byte_gray_getElem? (k b i : Nat) (hi : i < k) :
    (unpack_byte_gray k b)[i]? = some (if b.testBit (7 - i) then 0 else 255) := by
  unfold unpack_byte_gray
  rw [List.getElem?_map, List.getElem?_range hi]
  rfl

/-- Pixel i of a fully unpacked row is governed by bit 7 - i mod 8 of
byte i / 8. -/
theorem flatMap_unpack_getD (d : Nat) :
    ∀ (row : List Nat) (i : Nat), i < 8 * row.length →
      (row.flatMap (unpack_byte_gray 8)).getD i d =
        if (row.getD (i / 8) 0).testBit (7 - i % 8) then 0 else 255 := by
  intro row
  induction row with
  | nil => intro i hi; simp at hi
  | cons b row ih =>
    intro i hi
    rw [List.flatMap_cons]
    by_cases h8 : i < 8
    · rw [List.getD_eq_getElem?_getD,
        List.getElem?_append_left (by rw [unpack_byte_gray_length]; exact h8),
        unpack_byte_gray_getElem? 8 b i h8,
        Nat.div_eq_of_lt h8, Nat.mod_eq_of_lt h8]
      simp
    · rw [List.getD_eq_getElem?_getD,
        List.getElem?_append_right (by rw [unpack_byte_gray_length]; omega),
        unpack_byte_gray_length, ← List.getD_eq_getElem?_getD,
        ih (i - 8) (by rw [List.length_cons] at hi; omega)]
      have h1 : (i - 8) / 8 = i / 8 - 1 := by omega
      have h2 : (i - 8) % 8 = i % 8 := by omega
      rw [h1, h2]
      rcases Nat.exists_eq_add_of_le (by omega : 1 ≤ i / 8) with ⟨q, hq⟩
      rw [hq]
      simp [List.getD_cons_succ, Nat.add_comm]

/-- getD below the truncation point sees through take. -/
theorem getD_take_of_lt (l : List Nat) (n i d : Nat) (h : i < n) :
    (l.take n).getD i d = l.getD i d := by
  rw [List.getD_eq_getElem?_getD, List.getElem?_take_of_lt h,
    ← List.getD_eq_getElem?_getD]

/-- Pixel i of an unpacked and truncated row. -/
theorem unpack_row_getD (w d : Nat) (row : List Nat)
    (hlen : row.length = row_bytes w) (i : Nat) (hi : i < w) :
    ((row.flatMap (unpack_byte_gray 8)).take w).getD i d =
      if (row.getD (i / 8) 0).testBit (7 - i % 8) then 0 else 255 := by
  rw [getD_take_of_lt _ _ _ _ hi, flatMap_unpack_getD d row i ?_]
  rw [hlen]
  unfold row_bytes
  omega

/-- Indexing a flatMap whose pieces all have length w. -/
theorem flatMap_uniform_getD (w d : Nat) (hw : 0 < w) (f : List Nat → List Nat) :
    ∀ (rows : List (List Nat)), (∀ row ∈ rows, (f row).length = w) →
    ∀ i, i < w * rows.length →
      (rows.flatMap f).getD i d = (f (rows.getD (i / w) [])).getD (i % w) d := by
  intro rows
  induction rows with
  | nil => intro _ i hi; simp at hi
  | cons r rows ih =>
    intro hlen i hi
    rw [List.flatMap_cons]
    by_cases hiw : i < w
    · rw [List.getD_eq_getElem?_getD,
        List.getElem?_append_left
          (by rw [hlen r (List.mem_cons_self r rows)]; exact hiw),
        ← List.getD_eq_getElem?_getD,
        Nat.div_eq_of_lt hiw, Nat.mod_eq_of_lt hiw]
      rfl
    · rw [List.getD_eq_getElem?_getD,
        List.getElem?_append_right
          (by rw [hlen r (List.mem_cons_self r rows)]; omega),
        hlen r (List.mem_cons_self r rows), ← List.getD_eq_getElem?_getD,
        ih (fun row h => hlen row (List.mem_cons_of_mem r h)) (i - w)
          (by rw [List.length_cons, Nat.mul_succ] at hi; omega)]
      have e : i = (i - w) + w := by omega
      have hdiv : i / w = (i - w) / w + 1 := by
        conv_lhs => rw [e]
        rw [Nat.add_div_right _ hw]
      have hmod : i % w = (i - w) % w := by
        conv_lhs => rw [e]
        rw [Nat.add_mod_right]
      rw [hdiv, hmod]
      simp [List.getD_cons_succ]

/-- Indexing the flattening of rows that all have length L, at row q and
column t. -/
theorem flatten_uniform_getD (L d : Nat) :
    ∀ (rows : List (List Nat)), (∀ row ∈ rows, row.length = L) →
    ∀ (q t : Nat), q < rows.length → t < L →
      rows.flatten.getD (q * L + t) d = (rows.getD q []).getD t d := by
  intro rows
  induction rows with
  | nil => intro _ q t hq _; simp at hq
  | cons r rows ih =>
    intro hlen q t hq ht
    rw [List.flatten_cons]
    cases q with
    | zero =>
      rw [Nat.zero_mul, Nat.zero_add, List.getD_eq_getElem?_getD,
        List.getElem?_append_left
          (by rw [hlen r (List.mem_cons_self r rows)]; exact ht),
        ← List.getD_eq_getElem?_getD]
      rfl
    | succ q =>
      have hr : r.length = L := hlen r (List.mem_cons_self r rows)
      rw [Nat.succ_mul, List.getD_eq_getElem?_getD,
        List.getElem?_append_right (by rw [hr]; omega), hr,
        ← List.getD_eq_getElem?_getD,
        show q * L + L + t - L = q * L + t by omega,
        ih (fun row h => hlen row (List.mem_cons_of_mem r h)) q t
          (by rw [List.length_cons] at hq; omega) ht]
      simp [List.getD_cons_succ]

/-- Re-packing one grayscale pixel: 0 becomes bit 1, anything else
(255) bit 0; positions beyond the row read the default 255 and so pack
to 0, which is the claim's zero row padding. -/
def pack_bit (g : List Nat) (i : Nat) : Nat :=
  if g.getD i 255 = 0 then 1 else 0

/-- Re-packing eight grayscale pixels MSB-first into one byte. -/
def pack_byte (g : List Nat) (off : Nat) : Nat :=
  128 * pack_bit g off + 64 * pack_bit g (off + 1) + 32 * pack_bit g (off + 2) +
  16 * pack_bit g (off + 3) + 8 * pack_bit g (off + 4) + 4 * pack_bit g (off + 5) +
  2 * pack_bit g (off + 6) + pack_bit g (off + 7)

/-- Re-packing one grayscale row of width w into ceil(w/8) bytes. -/
def pack_row (w : Nat) (g : List Nat) : List Nat :=
  (List.range (row_bytes w)).map (fun j => pack_byte g (8 * j))

/-- Re-packing h grayscale rows of width w, row by row. -/
def repack (w : Nat) : Nat → List Nat → List Nat
  | 0, _ => []
  | n + 1, g => pack_row w (g.take w) ++ repack w n (g.drop w)

/-- A byte below 256 is the MSB-first weighted sum of its bits. -/
theorem byte_testBit_sum (b : Nat) (hb : b < 256) :
    128 * (if b.testBit 7 then 1 else 0) + 64 * (if b.testBit 6 then 1 else 0) +
    32 * (if b.testBit 5 then 1 else 0) + 16 * (if b.testBit 4 then 1 else 0) +
    8 * (if b.testBit 3 then 1 else 0) + 4 * (if b.testBit 2 then 1 else 0) +
    2 * (if b.testBit 1 then 1 else 0) + (if b.testBit 0 then 1 else 0) = b := by
  simp only [Nat.testBit_to_div_mod, decide_eq_true_eq]
  have key : ∀ m : Nat, (if b / m % 2 = 1 then 1 else 0) = b / m % 2 := by
    intro m
    rcases Nat.mod_two_eq_zero_or_one (b / m) with h | h <;> simp [h]
  rw [key, key, key, key, key, key, key, key]
  norm_num
  omega

/-- Re-packing the unpacked-and-truncated row recovers the original
bytes, provided each byte is below 256 and the bits of the last byte
beyond the padding are zero. -/
theorem pack_row_unpack (w : Nat) (hw : 0 < w) (row : List Nat)
    (hlen : row.length = row_bytes w) (hbytes : ∀ b ∈ row, b < 256)
    (hpad : row.getD (row_bytes w - 1) 0 % 2 ^ (8 - grayscale_padding w) = 0) :
    pack_row w ((row.flatMap (unpack_byte_gray 8)).take w) = row := by
  obtain ⟨hdec, hrb⟩ := row_bytes_decomp w hw
  obtain ⟨hp1, hp8⟩ := grayscale_padding_bounds w
  have hmain : ∀ j : Nat, j < row_bytes w →
      pack_byte ((row.flatMap (unpack_byte_gray 8)).take w) (8 * j) =
        row.getD j 0 := by
    intro j hjr
    have hj2 : j < row.length := by omega
    have hbj : row.getD j 0 < 256 := by
      refine hbytes _ ?_
      rw [List.getD_eq_getElem row 0 hj2]
      exact List.getElem_mem hj2
    have hbit : ∀ n : Nat, ¬ (8 * j + n < w) → n < 8 →
        (row.getD j 0).testBit (7 - n) = false := by
      intro n hn hn8
      have hjlast : j = row_bytes w - 1 := by omega
      have hklt : 7 - n < 8 - grayscale_padding w := by omega
      have hmod := Nat.testBit_mod_two_pow (row.getD (row_bytes w - 1) 0)
        (8 - grayscale_padding w) (7 - n)
      rw [hpad, Nat.zero_testBit, decide_eq_true hklt, Bool.true_and] at hmod
      rw [hjlast]
      exact hmod.symm
    have hterm : ∀ n : Nat, n < 8 →
        pack_bit ((row.flatMap (unpack_byte_gray 8)).take w) (8 * j + n) =
          if (row.getD j 0).testBit (7 - n) then 1 else 0 := by
      intro n hn
      by_cases hlt : 8 * j + n < w
      · unfold pack_bit
        rw [unpack_row_getD w 255 row hlen (8 * j + n) hlt,
          show (8 * j + n) / 8 = j by omega, show (8 * j + n) % 8 = n by omega]
        by_cases ht : (row.getD j 0).testBit (7 - n) <;> simp [ht]
      · have hfalse := hbit n hlt hn
        unfold pack_bit
        rw [List.getD_eq_default _ _ (by rw [unpack_row_length w row hlen]; omega),
          hfalse]
        simp
    have h0 := hterm 0 (by norm_num)
    have h1 := hterm 1 (by norm_num)
    have h2 := hterm 2 (by norm_num)
    have h3 := hterm 3 (by norm_num)
    have h4 := hterm 4 (by norm_num)
    have h5 := hterm 5 (by norm_num)
    have h6 := hterm 6 (by norm_num)
    have h7 := hterm 7 (by norm_num)
    rw [Nat.add_zero] at h0
    rw [pack_byte, h0, h1, h2, h3, h4, h5, h6, h7]
    simpa using byte_testBit_sum _ hbj
  apply List.ext_getElem?
  intro j
  by_cases hjr : j < row_bytes w
  · rw [show pack_row w ((row.flatMap (unpack_byte_gray 8)).take w) =
        (List.range (row_bytes w)).map
          (fun j => pack_byte ((row.flatMap (unpack_byte_gray 8)).take w) (8 * j))
        from rfl,
      List.getElem?_map, List.getElem?_range hjr,
      List.getElem?_eq_getElem (by omega : j < row.length)]
    rw [Option.map_some']
    exact congrArg some ((hmain j hjr).trans (List.getD_eq_getElem row 0 _))
  · rw [List.getElem?_eq_none
        (by simp only [pack_row, List.length_map, List.length_range]; omega),
      List.getElem?_eq_none (by omega)]

/-- Re-packing all rows of the unpacked image recovers the packed
input, under the per-row byte bound and zero-padding-bit hypotheses. -/
theorem repack_unpack (w : Nat) (hw : 0 < w) :
    ∀ rows : List (List Nat),
      (∀ row ∈ rows, row.length = row_bytes w) →
      (∀ row ∈ rows, ∀ b ∈ row, b < 256) →
      (∀ row ∈ rows,
        row.getD (row_bytes w - 1) 0 % 2 ^ (8 - grayscale_padding w) = 0) →
      repack w rows.length
        (rows.flatMap (fun row => (row.flatMap (unpack_byte_gray 8)).take w)) =
        rows.flatten := by
  intro rows
  induction rows with
  | nil => intro _ _ _; rfl
  | cons r rows ih =>
    intro hlen hbytes hpad
    have hr : r.length = row_bytes w := hlen r (List.mem_cons_self r rows)
    have hlr : ((r.flatMap (unpack_byte_gray 8)).take w).length = w :=
      unpack_row_length w r hr
    rw [List.flatMap_cons, List.length_cons, List.flatten_cons]
    simp only [repack]
    rw [List.take_left' hlr, List.drop_left' hlr,
      pack_row_unpack w hw r hr (hbytes r (List.mem_cons_self r rows))
        (hpad r (List.mem_cons_self r rows)),
      ih (fun row h => hlen row (List.mem_cons_of_mem r h))
        (fun row h => hbytes row (List.mem_cons_of_mem r h))
        (fun row h => hpad row (List.mem_cons_of_mem r h))]

/-- A flatMap whose pieces all have length w has length w times the row
count. -/
theorem flatMap_uniform_length (w : Nat) (f : List Nat → List Nat) :
    ∀ rows : List (List Nat), (∀ row ∈ rows, (f row).length = w) →
      (rows.flatMap f).length = w * rows.length := by
  intro rows
  induction rows with
  | nil => intro _; simp
  | cons r rows ih =>
    intro h
    rw [List.flatMap_cons, List.length_append, h r (List.mem_cons_self r rows),
      ih (fun row hm => h row (List.mem_cons_of_mem r hm)),
      List.length_cons, Nat.mul_succ]
    omega

/-- A bit-packed monochrome image as built by the graphics commands:
color 1, no stretch, block flow. -/
def mono_image (w h : Nat) (pixels : List Nat) : Image :=
  { pixels := pixels, x := 0, y := 0, w := w, h := h,
    pixel_type := PixelType.Monochrome 1, stretch := (1, 1),
    advances_y := true, upside_down := false }

/-- C5 counterexample: for w = 1, h = 1 and the single packed byte 1
(only the lowest, padding-discarded bit set), the input has the claimed
ceil(w/8) * h = 1 bytes, as_grayscale yields [255], and re-packing gives
[0], not the original [1] — the round trip loses nonzero padding bits. -/
theorem c5_counterexample :
    [(1 : Nat)].length = row_bytes 1 * 1 ∧ (1 : Nat) < 256 ∧
    (mono_image 1 1 [1]).as_grayscale = [255] ∧
    repack 1 1 (mono_image 1 1 [1]).as_grayscale = [0] ∧
    ([0] : List Nat) ≠ [1] := by
  decide

/-- C5 (amended): for every width w > 0 and bit-packed input given as h
rows of ceil(w/8) bytes each (bytes below 256), as_grayscale of the
monochrome image produces exactly w * h bytes; byte i is 0 exactly when
the corresponding MSB-first bit of the input is set (byte
(i/w) * ceil(w/8) + (i mod w)/8, bit 7 - (i mod w) mod 8) and 255
otherwise; and re-packing the result (0 to bit 1, 255 to bit 0,
MSB-first, rows padded to ceil(w/8) bytes) recovers the input provided
the padding bits of each row's last byte are zero — without that proviso
the round trip fails, as the counterexample shows. -/
theorem c5_as_grayscale_roundtrip :
    ∀ (w : Nat) (rows : List (List Nat)), 0 < w →
      (∀ row ∈ rows, row.length = row_bytes w) →
      (∀ row ∈ rows, ∀ b ∈ row, b < 256) →
      (mono_image w rows.length rows.flatten).as_grayscale.length =
        w * rows.length ∧
      (∀ i, i < w * rows.length →
        (mono_image w rows.length rows.flatten).as_grayscale.getD i 0 =
          if (rows.flatten.getD (i / w * row_bytes w + i % w / 8) 0).testBit
              (7 - i % w % 8)
          then 0 else 255) ∧
      ((∀ row ∈ rows,
          row.getD (row_bytes w - 1) 0 % 2 ^ (8 - grayscale_padding w) = 0) →
        repack w rows.length (mono_image w rows.length rows.flatten).as_grayscale =
          rows.flatten) := by
  intro w rows hw hlen hbytes
  have hgr : (mono_image w rows.length rows.flatten).as_grayscale =
      rows.flatMap (fun row => (row.flatMap (unpack_byte_gray 8)).take w) := by
    show (if PixelType.Monochrome 1 = PixelType.MonochromeByte then rows.flatten
      else as_grayscale_go w (grayscale_padding w) rows.flatten 0) = _
    rw [if_neg (by simp)]
    exact as_grayscale_flatten w hw rows hlen
  have hulen : ∀ row ∈ rows, ((row.flatMap (unpack_byte_gray 8)).take w).length = w :=
    fun row h => unpack_row_length w row (hlen row h)
  refine ⟨?_, ?_, ?_⟩
  · rw [hgr]
    exact flatMap_uniform_length w _ rows hulen
  · intro i hi
    have hq : i / w < rows.length := by
      rw [Nat.div_lt_iff_lt_mul hw, Nat.mul_comm]
      omega
    have hrowq : rows.getD (i / w) [] ∈ rows := by
      rw [List.getD_eq_getElem rows [] hq]
      exact List.getElem_mem hq
    have hlenq := hlen _ hrowq
    have hw8 : w ≤ 8 * row_bytes w := by
      unfold row_bytes
      omega
    have himw : i % w < w := Nat.mod_lt i hw
    rw [hgr, flatMap_uniform_getD w 0 hw _ rows hulen i hi,
      unpack_row_getD w 0 _ hlenq (i % w) himw,
      flatten_uniform_getD (row_bytes w) 0 rows hlen (i / w) (i % w / 8) hq
        (by omega)]
  · intro hpad
    rw [hgr]
    exact repack_unpack w hw rows hlen hbytes hpad

/-- C5 witness: width 8 with the single packed byte 165 (10100101):
as_grayscale has 8 * 1 bytes and the round trip recovers [165] (the
padding-bit proviso is vacuous when the width is a byte multiple). -/
theorem c5_witness :
    (mono_image 8 1 [165]).as_grayscale.length = 8 * 1 ∧
    repack 8 1 (mono_image 8 1 [165]).as_grayscale = [165] := by
  have h := c5_as_grayscale_roundtrip 8 [[165]] (by decide) (by decide) (by decide)
  exact ⟨h.1, h.2.2 (by decide)⟩

end Thermal
